import Mathlib

/-!
Verification development for the plasma CNC postprocessor
(`plasma_post.py`).  The source program is shallowly embedded below:
the configuration resolver `processArguments`, the per-object command
translator `parse`, and the surrounding `export` driver are modelled as
pure Lean functions over explicit state.  The output buffer is modelled
as a list of lines: every `gcode += chunk` in the source appends a chunk
ending in a newline, and each element of the list stands for one such
terminated line (the postamble path, which can emit a chunk containing
an interior terminator, is split into its constituent lines).
Machine floats are modelled as rationals.
-/

namespace PlasmaPost

/-! ## Exact rationals

Machine floats are modelled as exact fractions.  (Mathlib's `ℚ` cannot
serve here: its arithmetic is deliberately irreducible, while witnesses
must evaluate on concrete inputs.)  The denominator is positive for
every value built by this development; the arithmetic below is exact on
such fractions and no normalisation is needed, since converted values
are only ever rendered to text. -/

structure Q where
  num : Int
  den : Nat
  deriving DecidableEq

/-- Positivity of the value (the denominator being positive). -/
def qPos (v : Q) : Bool := decide (0 < v.num)

/-! ## String utilities (models of Python primitives) -/

/-- Model of Python `sub in s` (substring test), first step:
does `t` start with `needle`? -/
def startsWithList : List Char → List Char → Bool
  | [], _ => true
  | _ :: _, [] => false
  | a :: as, b :: bs => a == b && startsWithList as bs

/-- Model of Python `sub in s` on character lists. -/
def containsSubList (needle : List Char) : List Char → Bool
  | [] => needle.isEmpty
  | c :: cs => startsWithList needle (c :: cs) || containsSubList needle cs

/-- Model of the Python substring test `sub in s` used at
`if "CustomCommand" in command`. -/
def containsSub (s sub : String) : Bool :=
  containsSubList sub.data s.data

/-- Model of Python `str.splitlines(False)` (keepends=False) restricted to
`\n` terminators, which are the only ones appearing in this program. -/
def splitlinesAux (acc : List Char) : List Char → List (List Char)
  | [] => if acc.isEmpty then [] else [acc.reverse]
  | '\n' :: rest => acc.reverse :: splitlinesAux [] rest
  | c :: rest => splitlinesAux (c :: acc) rest

/-- Model of Python `s.splitlines(False)`. -/
def pySplitlines (s : String) : List String :=
  (splitlinesAux [] s.data).map fun l => ⟨l⟩

/-- Model of Python `str.splitlines(True)` (keepends=True), restricted to
`\n` terminators. -/
def splitlinesKeepAux (acc : List Char) : List Char → List (List Char)
  | [] => if acc.isEmpty then [] else [acc.reverse]
  | '\n' :: rest => ('\n' :: acc).reverse :: splitlinesKeepAux [] rest
  | c :: rest => splitlinesKeepAux (c :: acc) rest

/-- Model of Python `s.splitlines(True)`. -/
def pySplitlinesKeep (s : String) : List String :=
  (splitlinesKeepAux [] s.data).map fun l => ⟨l⟩

/-- Model of Python `" ".join(xs)`. -/
def joinSpace : List String → String
  | [] => ""
  | [t] => t
  | t :: t2 :: ts => t ++ " " ++ joinSpace (t2 :: ts)

/-! ## Numeric rendering (model of Python `format(x, ".Nf")` and `str(x)`) -/

/-- Decimal digits of `m`, most significant first, with `fuel` bounding the
number of digits (ample for every value arising here). -/
def natDigitsAux : Nat → Nat → List Char
  | 0, _ => []
  | _ + 1, 0 => []
  | fuel + 1, m => natDigitsAux fuel (m / 10) ++ [Nat.digitChar (m % 10)]

/-- Decimal rendering of a natural number. -/
def natStr (m : Nat) : String :=
  if m == 0 then "0" else ⟨natDigitsAux 30 m⟩

/-- Exactly `p` decimal digits of `m` (mod `10 ^ p`), zero-padded. -/
def padDigits : Nat → Nat → List Char
  | 0, _ => []
  | p + 1, m => padDigits p (m / 10) ++ [Nat.digitChar (m % 10)]

/-- Powers of ten, as naturals. -/
def pow10 : Nat → Nat
  | 0 => 1
  | n + 1 => 10 * pow10 n

/-- Round the fraction to the nearest integer, ties to even — the
rounding used by Python float-to-fixed formatting.  `f` is the floor
(exact integer division rounding down); the fractional remainder `r`
with `r = (q.num - f * q.den) / q.den` is compared against one half by
cross-multiplication. -/
def roundHalfEven (q : Q) : Int :=
  let f := q.num.fdiv q.den
  let r2 := 2 * (q.num - f * q.den)
  if r2 < (q.den : Int) then f
  else if (q.den : Int) < r2 then f + 1
  else if f % 2 = 0 then f else f + 1

/-- Render the integer `n` as a fixed-point decimal scaled down by
`10 ^ p` (so `renderScaled 3 1500 = "1.500"`). -/
def renderScaled (p : Nat) (n : ℤ) : String :=
  (if n < 0 then "-" else "")
    ++ natStr (n.natAbs / 10 ^ p)
    ++ (if p == 0 then "" else "." ++ String.mk (padDigits p (n.natAbs % 10 ^ p)))

/-- Model of Python `format(float(v), f".{p}f")`: fixed-point with exactly
`p` fractional digits.  (A negative value that rounds to zero loses its
sign here; no claim depends on that corner.) -/
def formatFixed (p : Nat) (q : Q) : String :=
  renderScaled p (roundHalfEven ⟨q.num * (pow10 p : Int), q.den⟩)

/-- Smallest exponent `k` (capped by the fuel) with `q * 10 ^ k`
integral. -/
def decExp : Nat → Q → Nat
  | 0, _ => 0
  | fuel + 1, q =>
    if q.num % (q.den : Int) = 0 then 0
    else 1 + decExp fuel ⟨q.num * 10, q.den⟩

/-- Model of Python `str(x)` / f-string interpolation of a float whose value
is an exact decimal: shortest decimal form, always with at least one
fractional digit (`str(2.0) = "2.0"`, `str(0.5) = "0.5"`). -/
def floatRepr (q : Q) : String :=
  let p := max (decExp 20 q) 1
  renderScaled p ((q.num * (pow10 p : Int)).fdiv q.den)

/-- Model of Python `float(s)` on plain decimal literals: optional sign,
digits, optional fraction.  (Exponent/infinity forms never occur in this
program's option values and are modelled as failures.) -/
def splitDot : List Char → List Char × Option (List Char)
  | [] => ([], none)
  | '.' :: rest => ([], some rest)
  | c :: rest =>
    let r := splitDot rest
    (c :: r.1, r.2)

/-- All characters are decimal digits. -/
def allDigits (cs : List Char) : Bool := cs.all fun c => c.isDigit

/-- Value of a digit string. -/
def digitsToNat (cs : List Char) : Nat :=
  cs.foldl (fun a c => a * 10 + (c.toNat - 48)) 0

/-- Model of Python `float(s)`, returning `none` where Python raises
`ValueError`. -/
def pyFloat (s : String) : Option Q :=
  let (sgn, body) : Int × List Char :=
    match s.data with
    | '-' :: r => (-1, r)
    | '+' :: r => (1, r)
    | r => (1, r)
  let ip := (splitDot body).1
  match (splitDot body).2 with
  | none =>
    if allDigits ip && !ip.isEmpty then some ⟨sgn * digitsToNat ip, 1⟩
    else none
  | some fp =>
    if allDigits ip && allDigits fp && (!ip.isEmpty || !fp.isEmpty) then
      some ⟨sgn * (digitsToNat ip * pow10 fp.length + digitsToNat fp),
        pow10 fp.length⟩
    else none

/-! ## Unit conversion (model of the external FreeCAD `Units` collaborator)

Command parameter values arrive in FreeCAD internal units: millimetres for
lengths, millimetres per second for velocities.
`Units.Quantity(v, Length).getValueAs(fmt)` and
`Units.Quantity(v, Velocity).getValueAs(fmt)` are modelled for the two
format tokens the program uses per unit system. -/

inductive UnitSystem
  | Metric
  | Imperial
  deriving DecidableEq

/-- Length conversion: `getValueAs("mm")` is the identity,
`getValueAs("in")` divides by 25.4 (multiplies by 5/127). -/
def convertLength : UnitSystem → Q → Q
  | .Metric, v => v
  | .Imperial, v => ⟨v.num * 5, v.den * 127⟩

/-- Speed conversion: `getValueAs("mm/min")` multiplies by 60,
`getValueAs("in/min")` additionally divides by 25.4
(multiplies by 300/127 overall). -/
def convertSpeed : UnitSystem → Q → Q
  | .Metric, v => ⟨v.num * 60, v.den⟩
  | .Imperial, v => ⟨v.num * 300, v.den * 127⟩

/-! ## Default preamble and postamble texts (source lines 50-58) -/

def defaultPreambleText : String :=
  "G90 G54 G40 G49 G80\nG21\n(Setup for plasma cutting)\n"

def defaultPostambleText : String :=
  "M8 (Torch OFF)\nG0 X0 Y0 (Return home)\nM30 (Program end)\n"

/-! ## Configuration resolver (`processArguments`, source lines 60-89)

The module-level globals mutated by `processArguments` are gathered into
one record.  `argparse` and `shlex` are external collaborators: a call is
modelled by the `Args` record they produce on success, or `none` when
`parser.parse_args` raises (unknown option, missing value, bad quoting),
which the source's `except` clause turns into `False` before any global
is touched.  The initial Python value of `PRECISION` is the integer `3`;
it is modelled as the string `"3"`, which renders identically in the
format string `f".{PRECISION}f"` and is the value any successful
argument-processing run stores there. -/

structure Globals where
  OUTPUT_HEADER : Bool
  OUTPUT_COMMENTS : Bool
  OUTPUT_LINE_NUMBERS : Bool
  SHOW_EDITOR : Bool
  PRECISION : String
  PREAMBLE : String
  POSTAMBLE : String
  UNITS : String
  UNIT_SPEED_FORMAT : String
  UNIT_FORMAT : String
  PIERCE_DELAY : Q

/-- The module-level defaults (source lines 37-58). -/
def initGlobals : Globals where
  OUTPUT_HEADER := true
  OUTPUT_COMMENTS := true
  OUTPUT_LINE_NUMBERS := false
  SHOW_EDITOR := true
  PRECISION := "3"
  PREAMBLE := defaultPreambleText
  POSTAMBLE := defaultPostambleText
  UNITS := "G21"
  UNIT_SPEED_FORMAT := "mm/min"
  UNIT_FORMAT := "mm"
  PIERCE_DELAY := ⟨1, 2⟩

/-- Result of `parser.parse_args`: the recognized options with their
argparse defaults (`precision` defaults to the string `"3"`,
`pierce_delay` to the string `"0.5"`). -/
structure Args where
  no_header : Bool
  no_comments : Bool
  line_numbers : Bool
  no_show_editor : Bool
  inches : Bool
  precision : String
  preamble : Option String
  postamble : Option String
  pierce_delay : String

/-- `parse_args` on an empty option string. -/
def defaultArgs : Args where
  no_header := false
  no_comments := false
  line_numbers := false
  no_show_editor := false
  inches := false
  precision := "3"
  preamble := none
  postamble := none
  pierce_delay := "0.5"

/-- The sequence of global assignments performed before the
`float(args.pierce_delay)` conversion (source lines 67-84).  Python
truthiness: option strings are applied when non-empty, `None` preamble or
postamble is skipped. -/
def applyPrePierce (g : Globals) (a : Args) : Globals :=
  let g := if a.no_header then { g with OUTPUT_HEADER := false } else g
  let g := if a.no_comments then { g with OUTPUT_COMMENTS := false } else g
  let g := if a.line_numbers then { g with OUTPUT_LINE_NUMBERS := true } else g
  let g := if a.no_show_editor then { g with SHOW_EDITOR := false } else g
  let g := if a.precision.isEmpty then g else { g with PRECISION := a.precision }
  let g := match a.preamble with
    | some s => if s.isEmpty then g else { g with PREAMBLE := s }
    | none => g
  let g := match a.postamble with
    | some s => if s.isEmpty then g else { g with POSTAMBLE := s }
    | none => g
  if a.inches then
    { g with UNITS := "G20", UNIT_SPEED_FORMAT := "in/min", UNIT_FORMAT := "in" }
  else g

/-- Model of `processArguments` (source lines 60-89): `parsed = none`
models `parser.parse_args` raising inside the `try` (returns `False`
with the globals untouched); a failing `float(args.pierce_delay)` also
returns `False`, but every assignment made before it remains in force. -/
def processArguments (g : Globals) (parsed : Option Args) : Bool × Globals :=
  match parsed with
  | none => (false, g)
  | some a =>
    let g8 := applyPrePierce g a
    if a.pierce_delay.isEmpty then (true, g8)
    else
      match pyFloat a.pierce_delay with
      | some v => (true, { g8 with PIERCE_DELAY := v })
      | none => (false, g8)

/-! ## Translation engine (`parse`, source lines 157-224)

`parse` is called once per motion object.  Its configuration inputs are
the globals it reads (`PRECISION`, `UNIT_FORMAT`, `UNIT_SPEED_FORMAT`,
`PIERCE_DELAY`) plus, for `export`, the emission flags and texts; they
are gathered into the engine view `Cfg` with `precision` as the natural
number any numeric-formatting run requires. -/

structure Cfg where
  emitHeader : Bool
  emitComments : Bool
  emitLineNumbers : Bool
  precision : Nat
  preambleText : String
  postambleText : String
  unitSystem : UnitSystem
  pierceDelay : Q

/-- The engine view of the module defaults. -/
def defaultCfg : Cfg where
  emitHeader := true
  emitComments := true
  emitLineNumbers := false
  precision := 3
  preambleText := defaultPreambleText
  postambleText := defaultPostambleText
  unitSystem := .Metric
  pierceDelay := ⟨1, 2⟩

/-- One motion command: a name plus an insertion-ordered parameter map
(modelled as an association list, like a Python dict preserving
insertion order). -/
structure Command where
  Name : String
  Parameters : List (String × Q)

/-- One entry of `objectslist`: `hasPath` models `hasattr(obj, "Path")`,
the two optional flags model the `hasattr` probes on `Active` and
`Base.Active` (`none` = attribute absent). -/
structure MotionObject where
  Label : String
  hasPath : Bool
  Active : Option Bool
  BaseActive : Option Bool
  commands : List Command

/-- The state threaded through one `parse` call (source lines 163-164). -/
structure EngineState where
  cutting : Bool
  currLocation : List (String × Q)
  deriving DecidableEq

/-- Python dict lookup on the parameter map. -/
def lookupParam (ps : List (String × Q)) (k : String) : Option Q :=
  match ps with
  | [] => none
  | (k', v) :: rest => if k' = k then some v else lookupParam rest k

/-- Python dict assignment `currLocation[param] = v`. -/
def setLoc : List (String × Q) → String → Q → List (String × Q)
  | [], k, v => [(k, v)]
  | (k', v') :: rest, k, v =>
    if k' = k then (k, v) :: rest else (k', v') :: setLoc rest k v

/-- The tracked parameter letters, in the source's fixed order
(`params = ["X", "Y", "F", "I", "J"]`, line 166). -/
def paramsOrder : List String := ["X", "Y", "F", "I", "J"]

/-- Location bookkeeping (source lines 216-218). -/
def updateLocation (loc : List (String × Q)) (ps : List (String × Q)) :
    List (String × Q) :=
  paramsOrder.foldl
    (fun l p =>
      match lookupParam ps p with
      | some v => setLoc l p v
      | none => l)
    loc

/-- Parameter list for custom and special commands (source lines 174,
180): raw values, no unit conversion, insertion order. -/
def paramStr (p : Nat) (ps : List (String × Q)) : String :=
  joinSpace (ps.map fun kv => kv.1 ++ formatFixed p kv.2)

/-- One tracked letter of the movement-parameter loop (source lines
191-200): `F` is converted as a velocity and kept only when the converted
value is positive; the other letters are converted as lengths and always
kept. -/
def paramToken (cfg : Cfg) (ps : List (String × Q)) (p : String) :
    Option String :=
  match lookupParam ps p with
  | none => none
  | some v =>
    if p = "F" then
      let sv := convertSpeed cfg.unitSystem v
      if qPos sv then some ("F" ++ formatFixed cfg.precision sv) else none
    else some (p ++ formatFixed cfg.precision (convertLength cfg.unitSystem v))

/-- The `outstring` built by the movement-parameter loop: the tokens
appended while walking `paramsOrder`. -/
def buildParams (cfg : Cfg) (ps : List (String × Q)) : List String :=
  paramsOrder.filterMap (paramToken cfg ps)

def ignoreSet : List String := ["M3", "M4", "M5", "G17", "G18", "G19", "G43"]

def cutCodes : List String := ["G1", "G2", "G3"]

def torchOnLine : String := "M7 (Torch ON)"

def torchOffLine : String := "M8 (Torch OFF)"

/-- The dwell line `G4 P{PIERCE_DELAY} (Pierce delay)` (source line 205). -/
def dwellLine (cfg : Cfg) : String :=
  "G4 P" ++ floatRepr cfg.pierceDelay ++ " (Pierce delay)"

/-- The command's own output line (source lines 212-213): emitted only
when `outstring` is non-empty. -/
def commandOwnLine (cfg : Cfg) (c : Command) : List String :=
  if (buildParams cfg c.Parameters).isEmpty then []
  else [c.Name ++ " " ++ joinSpace (buildParams cfg c.Parameters)]

/-- One iteration of the command loop of `parse` (source lines 168-218):
the emitted lines and the updated state. -/
def processCommand (cfg : Cfg) (st : EngineState) (c : Command) :
    List String × EngineState :=
  if containsSub c.Name "CustomCommand" then
    (["(Custom: " ++ c.Name ++ " " ++ paramStr cfg.precision c.Parameters ++ ")"],
      st)
  else if c.Name == "M100" || c.Name == "M101" then
    ([c.Name
        ++ (if c.Parameters.isEmpty then ""
            else " " ++ paramStr cfg.precision c.Parameters)
        ++ " (Special plasma command)"],
      st)
  else if ignoreSet.contains c.Name then ([], st)
  else
    let torch : List String × Bool :=
      if cutCodes.contains c.Name && !st.cutting then
        ([torchOnLine, dwellLine cfg], true)
      else if c.Name == "G0" && st.cutting then ([torchOffLine], false)
      else ([], st.cutting)
    (torch.1 ++ commandOwnLine cfg c,
      ⟨torch.2, updateLocation st.currLocation c.Parameters⟩)

/-- The command loop of `parse`. -/
def parseLoop (cfg : Cfg) (st : EngineState) :
    List Command → List String × EngineState
  | [] => ([], st)
  | c :: cs =>
    let r := processCommand cfg st c
    let rest := parseLoop cfg r.2 cs
    (r.1 ++ rest.1, rest.2)

/-- `parse(pathobj)` (source lines 157-224): fresh state per call
(`cutting = False`, empty `currLocation`), then the final safety check
appending a torch-off line when the loop ends still cutting. -/
def parse (cfg : Cfg) (cmds : List Command) : List String :=
  let r := parseLoop cfg ⟨false, []⟩ cmds
  r.1 ++ (if r.2.cutting then [torchOffLine] else [])

/-! ## Export driver (`export`, source lines 91-155) -/

/-- The unit-mode directive written after the preamble. -/
def unitsToken : UnitSystem → String
  | .Metric => "G21"
  | .Imperial => "G20"

/-- The speed-format name used in the begin-operation comment. -/
def speedFormatName : UnitSystem → String
  | .Metric => "mm/min"
  | .Imperial => "in/min"

/-- The unit name printed in the header. -/
def headerUnitName : UnitSystem → String
  | .Metric => "mm"
  | .Imperial => "inches"

/-- Header lines (source lines 105-108); `now` is the timestamp rendered
by the external `datetime` collaborator. -/
def headerLines (cfg : Cfg) (now : String) : List String :=
  if cfg.emitHeader then
    ["(Exported by FreeCAD Plasma Postprocessor - " ++ now ++ ")",
     "(Units: " ++ headerUnitName cfg.unitSystem ++ ")",
     "(Pierce delay: " ++ floatRepr cfg.pierceDelay ++ "s)"]
  else []

/-- Activity skip (source lines 117-120): skipped when `Active` exists and
is false, or `Base.Active` exists and is false. -/
def isSkipped (o : MotionObject) : Bool :=
  o.Active == some false || o.BaseActive == some false

/-- The lines contributed by one entry of `objectslist`
(source lines 116-129). -/
def objectLines (cfg : Cfg) (o : MotionObject) : List String :=
  if isSkipped o then []
  else
    (if cfg.emitComments then
      ["(begin operation: " ++ o.Label ++ ")",
       "(machine units: " ++ speedFormatName cfg.unitSystem ++ ")"]
     else [])
    ++ parse cfg o.commands
    ++ (if cfg.emitComments then ["(finish operation: " ++ o.Label ++ ")"] else [])

/-- The postamble emission (source lines 133-134): each piece of
`POSTAMBLE.splitlines(True)` — terminator kept — has one more newline
appended, so a terminated source line contributes its text plus a blank
line. -/
def postambleLines (t : String) : List String :=
  (pySplitlinesKeep t).flatMap fun l =>
    if l.data.getLast? == some '\n' then [⟨l.data.dropLast⟩, ""] else [l]

/-- `export(objectslist, filename, argstring)` after a successful
`processArguments`, up to the returned text (file writing and the editor
dialog are external).  Returns `none` when some object lacks a `Path`
attribute (source lines 97-100), which aborts before any output. -/
def exportGcode (cfg : Cfg) (now : String) (objs : List MotionObject) :
    Option (List String) :=
  if objs.all (fun o => o.hasPath) then
    some
      (headerLines cfg now
        ++ (if cfg.emitComments then ["(begin preamble)"] else [])
        ++ pySplitlines cfg.preambleText
        ++ [unitsToken cfg.unitSystem]
        ++ objs.flatMap (objectLines cfg)
        ++ (if cfg.emitComments then ["(begin postamble)"] else [])
        ++ postambleLines cfg.postambleText)
  else none

/-! ## Line classification helpers

`countLine` counts occurrences of one exact line in an output buffer;
the torch-closure claims are stated with it.  The lemmas below show that
no line produced by any branch other than the torch-control logic can
collide with the torch directive lines, whatever the input strings. -/

/-- Number of occurrences of the line `t` in the buffer. -/
def countLine (t : String) : List String → Nat
  | [] => 0
  | l :: ls => (if l = t then 1 else 0) + countLine t ls

/-- All suffixes of `t` that start right after an occurrence of `x`. -/
def tailsAfter (x : Char) : List Char → List (List Char)
  | [] => []
  | c :: cs => (if c = x then [cs] else []) ++ tailsAfter x cs

theorem mem_tailsAfter_of_append (x : Char) :
    ∀ l1 l2 t : List Char, l1 ++ x :: l2 = t → l2 ∈ tailsAfter x t := by
  intro l1
  induction l1 with
  | nil =>
    intro l2 t h
    subst h
    simp [tailsAfter]
  | cons a as ih =>
    intro l2 t h
    subst h
    simp only [List.cons_append, tailsAfter]
    exact List.mem_append_right _ (ih l2 _ rfl)

theorem headChar_append (a b : String) (c : Char)
    (h : a.data.head? = some c) : (a ++ b).data.head? = some c := by
  rw [String.data_append]
  cases ha : a.data with
  | nil => rw [ha] at h; cases h
  | cons x xs => rw [ha] at h; simpa using h

theorem ne_of_head (s t : String) (cs ct : Char)
    (hs : s.data.head? = some cs) (ht : t.data.head? = some ct)
    (h : cs ≠ ct) : s ≠ t := by
  intro he
  rw [he, ht] at hs
  exact h (Option.some.inj hs).symm

theorem ne_of_take2 (s t : String) (h : s.data.take 2 ≠ t.data.take 2) :
    s ≠ t := fun he => h (he ▸ rfl)

/-- The two torch directive lines differ. -/
theorem torchOn_ne_torchOff : torchOnLine ≠ torchOffLine := by decide

/-- Tails after a space in the torch-on directive. -/
theorem tailsAfter_torchOn :
    tailsAfter ' ' torchOnLine.data = ["(Torch ON)".data, "ON)".data] := by
  decide

/-- Tails after a space in the torch-off directive. -/
theorem tailsAfter_torchOff :
    tailsAfter ' ' torchOffLine.data = ["(Torch OFF)".data, "OFF)".data] := by
  decide

/-- A line of the form `name ++ " " ++ s`, where `s` starts with a
character other than `(` and `O`, is neither torch directive. -/
theorem sepLine_ne_torch (nm s : String) (c0 : Char) (cs : List Char)
    (hs : s.data = c0 :: cs) (h1 : c0 ≠ '(') (h2 : c0 ≠ 'O') (t : String)
    (ht : t = torchOnLine ∨ t = torchOffLine) : nm ++ " " ++ s ≠ t := by
  intro h
  have hd : nm.data ++ ' ' :: s.data = t.data := by
    have h' := congrArg String.data h
    rw [String.data_append, String.data_append] at h'
    simpa [List.append_assoc] using h'
  have hmem := mem_tailsAfter_of_append ' ' nm.data s.data _ hd
  rcases ht with ht | ht <;> subst ht
  · rw [tailsAfter_torchOn] at hmem
    rw [hs] at hmem
    rcases List.mem_pair.mp hmem with h' | h'
    · have h0 : "(Torch ON)".data = '(' :: "Torch ON)".data := rfl
      rw [h0] at h'
      exact h1 (List.cons.injEq .. ▸ h' |>.1)
    · have h0 : "ON)".data = 'O' :: "N)".data := rfl
      rw [h0] at h'
      exact h2 (List.cons.injEq .. ▸ h' |>.1)
  · rw [tailsAfter_torchOff] at hmem
    rw [hs] at hmem
    rcases List.mem_pair.mp hmem with h' | h'
    · have h0 : "(Torch OFF)".data = '(' :: "Torch OFF)".data := rfl
      rw [h0] at h'
      exact h1 (List.cons.injEq .. ▸ h' |>.1)
    · have h0 : "OFF)".data = 'O' :: "FF)".data := rfl
      rw [h0] at h'
      exact h2 (List.cons.injEq .. ▸ h' |>.1)

/-- The head of a space-joined non-empty token list is the head of its
first token. -/
theorem joinSpace_cons_data (t : String) (ts : List String) :
    ∃ r, (joinSpace (t :: ts)).data = t.data ++ r := by
  cases ts with
  | nil => exact ⟨[], by simp [joinSpace]⟩
  | cons b bs =>
    refine ⟨(" " ++ joinSpace (b :: bs)).data, ?_⟩
    simp [joinSpace, String.data_append, List.append_assoc]

/-- A produced parameter token always starts with its letter. -/
theorem paramToken_shape (cfg : Cfg) (ps : List (String × Q)) (p tok : String)
    (h : paramToken cfg ps p = some tok) : ∃ s, tok = p ++ s := by
  unfold paramToken at h
  rcases hl : lookupParam ps p with _ | v
  · rw [hl] at h; cases h
  · rw [hl] at h
    dsimp only at h
    by_cases hf : p = "F"
    · rw [if_pos hf] at h
      by_cases h0 : qPos (convertSpeed cfg.unitSystem v) = true
      · rw [if_pos h0] at h
        exact ⟨_, by rw [← Option.some.inj h, hf]⟩
      · rw [if_neg h0] at h; cases h
    · rw [if_neg hf] at h
      exact ⟨_, (Option.some.inj h).symm⟩

/-- Every token of `outstring` starts with its tracked parameter letter. -/
theorem buildParams_mem_head (cfg : Cfg) (ps : List (String × Q)) (tok : String)
    (h : tok ∈ buildParams cfg ps) :
    ∃ c0 cs, tok.data = c0 :: cs ∧
      (c0 = 'X' ∨ c0 = 'Y' ∨ c0 = 'F' ∨ c0 = 'I' ∨ c0 = 'J') := by
  unfold buildParams at h
  rw [List.mem_filterMap] at h
  obtain ⟨p, hp, hsome⟩ := h
  obtain ⟨s, rfl⟩ := paramToken_shape cfg ps p _ hsome
  fin_cases hp
  · exact ⟨'X', s.data, by rw [String.data_append]; rfl, by simp⟩
  · exact ⟨'Y', s.data, by rw [String.data_append]; rfl, by simp⟩
  · exact ⟨'F', s.data, by rw [String.data_append]; rfl, by simp⟩
  · exact ⟨'I', s.data, by rw [String.data_append]; rfl, by simp⟩
  · exact ⟨'J', s.data, by rw [String.data_append]; rfl, by simp⟩

/-- The command's own output line is never a torch directive line,
whatever the command name and parameters. -/
theorem commandOwnLine_ne_torch (cfg : Cfg) (c : Command) (t : String)
    (ht : t = torchOnLine ∨ t = torchOffLine) (l : String)
    (hl : l ∈ commandOwnLine cfg c) : l ≠ t := by
  unfold commandOwnLine at hl
  rcases hos : buildParams cfg c.Parameters with _ | ⟨tok, rest⟩
  · rw [hos] at hl; simp at hl
  · rw [hos] at hl
    simp only [List.isEmpty_cons, Bool.false_eq_true, if_false,
      List.mem_singleton] at hl
    subst hl
    have hmem : tok ∈ buildParams cfg c.Parameters := by
      rw [hos]; exact List.mem_cons_self _ _
    obtain ⟨c0, cs, hdata, hc0⟩ := buildParams_mem_head cfg c.Parameters tok hmem
    obtain ⟨r, hr⟩ := joinSpace_cons_data tok rest
    have hs : (joinSpace (tok :: rest)).data = c0 :: (cs ++ r) := by
      rw [hr, hdata]; rfl
    exact sepLine_ne_torch c.Name _ c0 (cs ++ r) hs
      (by rcases hc0 with rfl | rfl | rfl | rfl | rfl <;> decide)
      (by rcases hc0 with rfl | rfl | rfl | rfl | rfl <;> decide) t ht

/-! ## Counting torch directive lines -/

theorem countLine_append (t : String) (a b : List String) :
    countLine t (a ++ b) = countLine t a + countLine t b := by
  induction a with
  | nil => simp [countLine]
  | cons x xs ih =>
    rw [List.cons_append]
    show (if x = t then 1 else 0) + countLine t (xs ++ b) = _
    rw [ih]
    show _ = (if x = t then 1 else 0) + countLine t xs + countLine t b
    omega

theorem countLine_take_le (t : String) (ls : List String) (n : Nat) :
    countLine t (ls.take n) ≤ countLine t ls := by
  induction ls generalizing n with
  | nil => simp [countLine]
  | cons x xs ih =>
    cases n with
    | zero => simp [countLine]
    | succ m =>
      rw [List.take_succ_cons]
      simp only [countLine]
      have := ih m
      omega

theorem countLine_eq_zero_of_forall_ne (t : String) (ls : List String)
    (h : ∀ l ∈ ls, l ≠ t) : countLine t ls = 0 := by
  induction ls with
  | nil => rfl
  | cons x xs ih =>
    simp only [countLine, if_neg (h x (List.mem_cons_self x xs)),
      ih fun l hl => h l (List.mem_cons_of_mem x hl)]

/-- Slack of the engine state: how many more torch-on lines than torch-off
lines the rest of the run may still emit at any prefix. -/
def slack : Bool → Nat
  | true => 0
  | false => 1

/-- Prefix invariant: in every prefix of `ls`, the number of torch-on
directive lines exceeds the number of torch-off directive lines by at
most `s`. -/
def PrefOk (s : Nat) (ls : List String) : Prop :=
  ∀ n, countLine torchOnLine (ls.take n) ≤ countLine torchOffLine (ls.take n) + s

theorem prefOk_of_no_on (s : Nat) (ls : List String)
    (h : countLine torchOnLine ls = 0) : PrefOk s ls := by
  intro n
  have := countLine_take_le torchOnLine ls n
  omega

theorem prefOk_cons_on (ls : List String)
    (h : countLine torchOnLine ls = 0) : PrefOk 1 (torchOnLine :: ls) := by
  intro n
  cases n with
  | zero => simp [countLine]
  | succ m =>
    rw [List.take_succ_cons]
    have h1 : countLine torchOnLine (List.take m ls) = 0 :=
      Nat.le_zero.mp (h ▸ countLine_take_le torchOnLine ls m)
    simp [countLine, torchOn_ne_torchOff, h1]

theorem prefOk_append (s1 s2 : Nat) (l1 l2 : List String)
    (h1 : PrefOk s1 l1) (h2 : PrefOk s2 l2)
    (he : countLine torchOffLine l1 + s1 = countLine torchOnLine l1 + s2) :
    PrefOk s1 (l1 ++ l2) := by
  intro n
  rw [List.take_append_eq_append_take, countLine_append, countLine_append]
  by_cases hn : n ≤ l1.length
  · rw [Nat.sub_eq_zero_of_le hn]
    simp only [List.take_zero, countLine]
    have := h1 n
    omega
  · rw [List.take_of_length_le (Nat.le_of_not_le hn)]
    have := h2 (n - l1.length)
    omega

/-- A custom-marker comment line is never a torch directive. -/
theorem customLine_ne_torch (n p : String) (t : String)
    (ht : t = torchOnLine ∨ t = torchOffLine) :
    "(Custom: " ++ n ++ " " ++ p ++ ")" ≠ t := by
  have h0 : ("(Custom: " : String).data.head? = some '(' := rfl
  have h1 := headChar_append "(Custom: " n '(' h0
  have h2 := headChar_append _ " " '(' h1
  have h3 := headChar_append _ p '(' h2
  have h4 := headChar_append _ ")" '(' h3
  rcases ht with rfl | rfl
  · exact ne_of_head _ _ '(' 'M' h4 rfl (by decide)
  · exact ne_of_head _ _ '(' 'M' h4 rfl (by decide)

/-- A special plasma command line (M100/M101) is never a torch directive. -/
theorem specialLine_ne_torch (nm mid tail : String)
    (h : nm = "M100" ∨ nm = "M101") (t : String)
    (ht : t = torchOnLine ∨ t = torchOffLine) : nm ++ mid ++ tail ≠ t := by
  apply ne_of_take2
  have hd : (nm ++ mid ++ tail).data = nm.data ++ (mid.data ++ tail.data) := by
    rw [String.data_append, String.data_append, List.append_assoc]
  rw [hd]
  rcases h with rfl | rfl <;> rcases ht with rfl | rfl
  · rw [show ("M100".data ++ (mid.data ++ tail.data)).take 2 = ['M', '1'] from rfl]
    decide
  · rw [show ("M100".data ++ (mid.data ++ tail.data)).take 2 = ['M', '1'] from rfl]
    decide
  · rw [show ("M101".data ++ (mid.data ++ tail.data)).take 2 = ['M', '1'] from rfl]
    decide
  · rw [show ("M101".data ++ (mid.data ++ tail.data)).take 2 = ['M', '1'] from rfl]
    decide

/-- The pierce-delay dwell line is never a torch directive. -/
theorem dwellLine_ne_torch (cfg : Cfg) (t : String)
    (ht : t = torchOnLine ∨ t = torchOffLine) : dwellLine cfg ≠ t := by
  unfold dwellLine
  have h0 : ("G4 P" : String).data.head? = some 'G' := rfl
  have h1 := headChar_append "G4 P" (floatRepr cfg.pierceDelay) 'G' h0
  have h2 := headChar_append _ " (Pierce delay)" 'G' h1
  rcases ht with rfl | rfl
  · exact ne_of_head _ _ 'G' 'M' h2 rfl (by decide)
  · exact ne_of_head _ _ 'G' 'M' h2 rfl (by decide)

/-- Counting invariant for one command step: the slack-adjusted torch-on
and torch-off counts balance, and every prefix of the emitted lines keeps
the torch-on count within the incoming slack of the torch-off count. -/
theorem processCommand_counts (cfg : Cfg) (st : EngineState) (c : Command) :
    countLine torchOffLine (processCommand cfg st c).1 + slack st.cutting
      = countLine torchOnLine (processCommand cfg st c).1
        + slack (processCommand cfg st c).2.cutting
    ∧ PrefOk (slack st.cutting) (processCommand cfg st c).1 := by
  have hcmdOn : countLine torchOnLine (commandOwnLine cfg c) = 0 :=
    countLine_eq_zero_of_forall_ne _ _ fun l hl =>
      commandOwnLine_ne_torch cfg c _ (Or.inl rfl) l hl
  have hcmdOff : countLine torchOffLine (commandOwnLine cfg c) = 0 :=
    countLine_eq_zero_of_forall_ne _ _ fun l hl =>
      commandOwnLine_ne_torch cfg c _ (Or.inr rfl) l hl
  unfold processCommand
  by_cases h1 : containsSub c.Name "CustomCommand" = true
  · rw [if_pos h1]
    have hOn : countLine torchOnLine
        ["(Custom: " ++ c.Name ++ " " ++ paramStr cfg.precision c.Parameters ++ ")"] = 0 := by
      simp [countLine, customLine_ne_torch _ _ _ (Or.inl rfl)]
    have hOff : countLine torchOffLine
        ["(Custom: " ++ c.Name ++ " " ++ paramStr cfg.precision c.Parameters ++ ")"] = 0 := by
      simp [countLine, customLine_ne_torch _ _ _ (Or.inr rfl)]
    exact ⟨by rw [hOn, hOff], prefOk_of_no_on _ _ hOn⟩
  · rw [if_neg h1]
    by_cases h2 : (c.Name == "M100" || c.Name == "M101") = true
    · rw [if_pos h2]
      rw [Bool.or_eq_true, beq_iff_eq, beq_iff_eq] at h2
      have hOn : countLine torchOnLine
          [c.Name
            ++ (if c.Parameters.isEmpty then ""
                else " " ++ paramStr cfg.precision c.Parameters)
            ++ " (Special plasma command)"] = 0 := by
        simp [countLine, specialLine_ne_torch _ _ _ h2 _ (Or.inl rfl)]
      have hOff : countLine torchOffLine
          [c.Name
            ++ (if c.Parameters.isEmpty then ""
                else " " ++ paramStr cfg.precision c.Parameters)
            ++ " (Special plasma command)"] = 0 := by
        simp [countLine, specialLine_ne_torch _ _ _ h2 _ (Or.inr rfl)]
      exact ⟨by rw [hOn, hOff], prefOk_of_no_on _ _ hOn⟩
    · rw [if_neg h2]
      by_cases h3 : ignoreSet.contains c.Name = true
      · rw [if_pos h3]
        exact ⟨rfl, prefOk_of_no_on _ _ rfl⟩
      · rw [if_neg h3]
        by_cases h4 : (cutCodes.contains c.Name && !st.cutting) = true
        · rw [if_pos h4]
          rw [Bool.and_eq_true, Bool.not_eq_true'] at h4
          dsimp only
          have e1 : countLine torchOffLine [torchOnLine, dwellLine cfg] = 0 := by
            simp [countLine, torchOn_ne_torchOff,
              dwellLine_ne_torch cfg _ (Or.inr rfl)]
          have e2 : countLine torchOnLine [torchOnLine, dwellLine cfg] = 1 := by
            simp [countLine, dwellLine_ne_torch cfg _ (Or.inl rfl)]
          constructor
          · rw [countLine_append, countLine_append, e1, e2, hcmdOn, hcmdOff, h4.2]
            rfl
          · rw [h4.2]
            have hz : countLine torchOnLine
                (dwellLine cfg :: commandOwnLine cfg c) = 0 := by
              simp [countLine, dwellLine_ne_torch cfg _ (Or.inl rfl), hcmdOn]
            exact prefOk_cons_on _ hz
        · rw [if_neg h4]
          by_cases h5 : (c.Name == "G0" && st.cutting) = true
          · rw [if_pos h5]
            rw [Bool.and_eq_true] at h5
            dsimp only
            have e1 : countLine torchOffLine [torchOffLine] = 1 := by
              simp [countLine]
            have e2 : countLine torchOnLine [torchOffLine] = 0 := by
              simp [countLine, Ne.symm torchOn_ne_torchOff]
            constructor
            · rw [countLine_append, countLine_append, e1, e2, hcmdOn, hcmdOff, h5.2]
              rfl
            · apply prefOk_of_no_on
              rw [countLine_append, e2, hcmdOn]
          · rw [if_neg h5]
            dsimp only
            constructor
            · rw [countLine_append, countLine_append, hcmdOn, hcmdOff]
              simp [countLine]
            · apply prefOk_of_no_on
              rw [countLine_append, hcmdOn]
              rfl

/-- The loop invariant extended over a command list. -/
theorem parseLoop_counts (cfg : Cfg) (cmds : List Command) :
    ∀ st : EngineState,
    countLine torchOffLine (parseLoop cfg st cmds).1 + slack st.cutting
      = countLine torchOnLine (parseLoop cfg st cmds).1
        + slack (parseLoop cfg st cmds).2.cutting
    ∧ PrefOk (slack st.cutting) (parseLoop cfg st cmds).1 := by
  induction cmds with
  | nil => exact fun st => ⟨rfl, prefOk_of_no_on _ _ rfl⟩
  | cons c cs ih =>
    intro st
    obtain ⟨he1, hp1⟩ := processCommand_counts cfg st c
    obtain ⟨he2, hp2⟩ := ih (processCommand cfg st c).2
    unfold parseLoop
    dsimp only
    constructor
    · rw [countLine_append, countLine_append]
      omega
    · exact prefOk_append _ _ _ _ hp1 hp2 he1

/-- Output buffers whose torch-on and torch-off counts agree and whose
prefixes never run more than one torch-on ahead. -/
def Balanced (ls : List String) : Prop :=
  countLine torchOnLine ls = countLine torchOffLine ls ∧ PrefOk 1 ls

theorem balanced_nil : Balanced [] := ⟨rfl, prefOk_of_no_on _ _ rfl⟩

theorem balanced_of_no_torch (ls : List String)
    (hOn : countLine torchOnLine ls = 0)
    (hOff : countLine torchOffLine ls = 0) : Balanced ls :=
  ⟨hOn.trans hOff.symm, prefOk_of_no_on _ _ hOn⟩

theorem balanced_append (a b : List String) (ha : Balanced a)
    (hb : Balanced b) : Balanced (a ++ b) := by
  obtain ⟨ha1, ha2⟩ := ha
  obtain ⟨hb1, hb2⟩ := hb
  constructor
  · rw [countLine_append, countLine_append, ha1, hb1]
  · exact prefOk_append 1 1 a b ha2 hb2 (by omega)

/-- Each single `parse` call closes its torch uses: its output is
balanced (this is the per-object safety closure at source lines
220-222). -/
theorem parse_balanced (cfg : Cfg) (cmds : List Command) :
    Balanced (parse cfg cmds) := by
  unfold parse
  obtain ⟨he, hp⟩ := parseLoop_counts cfg cmds ⟨false, []⟩
  dsimp only
  simp only [slack] at he hp
  cases hcut : (parseLoop cfg ⟨false, []⟩ cmds).2.cutting
  · rw [hcut] at he
    simp only [slack] at he
    rw [if_neg (by simp)]
    rw [List.append_nil]
    exact ⟨by omega, hp⟩
  · rw [hcut] at he
    simp only [slack] at he
    rw [if_pos rfl]
    have e1 : countLine torchOffLine [torchOffLine] = 1 := by simp [countLine]
    have e2 : countLine torchOnLine [torchOffLine] = 0 := by
      simp [countLine, Ne.symm torchOn_ne_torchOff]
    constructor
    · rw [countLine_append, countLine_append, e1, e2]
      omega
    · exact prefOk_append 1 0 _ _ hp (prefOk_of_no_on 0 _ e2) (by omega)

/-- A line starting with an opening parenthesis (comment lines) is never
a torch directive. -/
theorem parenLine2_ne_torch (p a b : String) (hp : p.data.head? = some '(')
    (t : String) (ht : t = torchOnLine ∨ t = torchOffLine) :
    p ++ a ++ b ≠ t := by
  have h1 := headChar_append p a '(' hp
  have h2 := headChar_append _ b '(' h1
  rcases ht with rfl | rfl
  · exact ne_of_head _ _ '(' 'M' h2 rfl (by decide)
  · exact ne_of_head _ _ '(' 'M' h2 rfl (by decide)

/-- The per-object comment markers contain no torch directive. -/
theorem objectLines_balanced (cfg : Cfg) (o : MotionObject) :
    Balanced (objectLines cfg o) := by
  unfold objectLines
  by_cases hskip : isSkipped o = true
  · rw [if_pos hskip]; exact balanced_nil
  · rw [if_neg hskip]
    have hc1 : Balanced
        (if cfg.emitComments then
          ["(begin operation: " ++ o.Label ++ ")",
           "(machine units: " ++ speedFormatName cfg.unitSystem ++ ")"]
         else []) := by
      by_cases hcm : cfg.emitComments = true
      · rw [if_pos hcm]
        have n1 := parenLine2_ne_torch "(begin operation: " o.Label ")" rfl
        have n2 := parenLine2_ne_torch "(machine units: "
          (speedFormatName cfg.unitSystem) ")" rfl
        apply balanced_of_no_torch <;>
          simp [countLine, n1 _ (Or.inl rfl), n1 _ (Or.inr rfl),
            n2 _ (Or.inl rfl), n2 _ (Or.inr rfl)]
      · rw [if_neg hcm]; exact balanced_nil
    have hc3 : Balanced
        (if cfg.emitComments then
          ["(finish operation: " ++ o.Label ++ ")"] else []) := by
      by_cases hcm : cfg.emitComments = true
      · rw [if_pos hcm]
        have n1 := parenLine2_ne_torch "(finish operation: " o.Label ")" rfl
        apply balanced_of_no_torch <;>
          simp [countLine, n1 _ (Or.inl rfl), n1 _ (Or.inr rfl)]
      · rw [if_neg hcm]; exact balanced_nil
    exact balanced_append _ _
      (balanced_append _ _ hc1 (parse_balanced cfg o.commands)) hc3

/-- All objects together keep the output balanced. -/
theorem flatMap_objectLines_balanced (cfg : Cfg) (objs : List MotionObject) :
    Balanced (objs.flatMap (objectLines cfg)) := by
  induction objs with
  | nil => exact balanced_nil
  | cons o os ih =>
    rw [List.flatMap_cons]
    exact balanced_append _ _ (objectLines_balanced cfg o) ih

/-- Header lines contain no torch directive. -/
theorem headerLines_balanced (cfg : Cfg) (now : String) :
    Balanced (headerLines cfg now) := by
  unfold headerLines
  by_cases hh : cfg.emitHeader = true
  · rw [if_pos hh]
    have n1 := parenLine2_ne_torch "(Exported by FreeCAD Plasma Postprocessor - "
      now ")" rfl
    have n2 := parenLine2_ne_torch "(Units: "
      (headerUnitName cfg.unitSystem) ")" rfl
    have n3 := parenLine2_ne_torch "(Pierce delay: "
      (floatRepr cfg.pierceDelay) "s)" rfl
    apply balanced_of_no_torch <;>
      simp [countLine, n1 _ (Or.inl rfl), n1 _ (Or.inr rfl),
        n2 _ (Or.inl rfl), n2 _ (Or.inr rfl),
        n3 _ (Or.inl rfl), n3 _ (Or.inr rfl)]
  · rw [if_neg hh]; exact balanced_nil

/-! ## Claim theorems: torch closure (C1, C2) -/

/-- C2 (amended): for every input processed with the default preamble and
postamble texts, every prefix of the export output has at most one more
torch-on directive than torch-off directives; after full processing the
torch-off count exceeds the torch-on count by exactly one, the extra
torch-off being the unconditional one in the default postamble (the
command-translation stage itself is balanced). -/
theorem export_torch_closure (cfg : Cfg) (now : String)
    (objs : List MotionObject)
    (hpre : cfg.preambleText = defaultPreambleText)
    (hpost : cfg.postambleText = defaultPostambleText)
    (hp : ∀ o ∈ objs, o.hasPath = true) :
    ∃ out, exportGcode cfg now objs = some out ∧ PrefOk 1 out ∧
      countLine torchOffLine out = countLine torchOnLine out + 1 := by
  have hall : objs.all (fun o => o.hasPath) = true := List.all_eq_true.mpr hp
  unfold exportGcode
  rw [if_pos hall, hpre, hpost]
  have b1 := headerLines_balanced cfg now
  have b2 : Balanced (if cfg.emitComments then ["(begin preamble)"] else []) := by
    by_cases hcm : cfg.emitComments = true
    · rw [if_pos hcm]; exact balanced_of_no_torch _ (by decide) (by decide)
    · rw [if_neg hcm]; exact balanced_nil
  have b3 : Balanced (pySplitlines defaultPreambleText) :=
    balanced_of_no_torch _ (by decide) (by decide)
  have b4 : Balanced [unitsToken cfg.unitSystem] := by
    cases hus : cfg.unitSystem
    · exact balanced_of_no_torch _ (by decide) (by decide)
    · exact balanced_of_no_torch _ (by decide) (by decide)
  have b5 := flatMap_objectLines_balanced cfg objs
  have b6 : Balanced (if cfg.emitComments then ["(begin postamble)"] else []) := by
    by_cases hcm : cfg.emitComments = true
    · rw [if_pos hcm]; exact balanced_of_no_torch _ (by decide) (by decide)
    · rw [if_neg hcm]; exact balanced_nil
  have bP := balanced_append _ _ (balanced_append _ _ (balanced_append _ _
    (balanced_append _ _ (balanced_append _ _ b1 b2) b3) b4) b5) b6
  have hpostOn : countLine torchOnLine (postambleLines defaultPostambleText) = 0 := by
    decide
  have hpostOff : countLine torchOffLine (postambleLines defaultPostambleText) = 1 := by
    decide
  refine ⟨_, rfl, ?_, ?_⟩
  · exact prefOk_append 1 1 _ _ bP.2 (prefOk_of_no_on 1 _ hpostOn)
      (by have := bP.1; omega)
  · simp only [countLine_append]
    rw [hpostOn, hpostOff]
    have := bP.1
    simp only [countLine_append] at this
    omega

/-- Witness for `export_torch_closure` at a concrete input. -/
theorem export_torch_closure_witness :
    (∀ o ∈ ([] : List MotionObject), o.hasPath = true) ∧
    (∃ out, exportGcode defaultCfg "" [] = some out ∧ PrefOk 1 out ∧
      countLine torchOffLine out = countLine torchOnLine out + 1) :=
  ⟨by simp, export_torch_closure defaultCfg "" [] rfl rfl (by simp)⟩

/-- C2 (counterexample to the claim as stated): on the empty object list,
after full processing the torch-on and torch-off counts of the produced
output are not equal — the default postamble contributes a torch-off with
no matching torch-on. -/
theorem c2_counterexample :
    exportGcode defaultCfg "" [] ≠ none ∧
    countLine torchOnLine ((exportGcode defaultCfg "" []).getD []) = 0 ∧
    countLine torchOffLine ((exportGcode defaultCfg "" []).getD []) = 1 := by
  refine ⟨by decide, by decide, by decide⟩

/-- C1 (amended): the torch-engaged flag is reset to false at the start of
each object's `parse` call and the safety torch-off closure runs per
object, so each single object's translated output carries equally many
torch-on and torch-off directive lines. -/
theorem c1_per_object_closure (cfg : Cfg) (cmds : List Command) :
    countLine torchOnLine (parse cfg cmds)
      = countLine torchOffLine (parse cfg cmds) :=
  (parse_balanced cfg cmds).1

/-- C1 (counterexample to the claim as stated): two consecutive objects,
each a single cutting move.  Were the torch flag carried across object
boundaries with one global safety closure, the output would contain one
torch-on and (with the postamble) two torch-offs; the code instead emits
a torch-on and a safety torch-off for each object: two torch-ons and
three torch-offs. -/
theorem c1_counterexample :
    countLine torchOnLine
      ((exportGcode defaultCfg ""
        [⟨"A", true, none, none, [⟨"G1", []⟩]⟩,
         ⟨"B", true, none, none, [⟨"G1", []⟩]⟩]).getD []) = 2 ∧
    countLine torchOffLine
      ((exportGcode defaultCfg ""
        [⟨"A", true, none, none, [⟨"G1", []⟩]⟩,
         ⟨"B", true, none, none, [⟨"G1", []⟩]⟩]).getD []) = 3 := by
  refine ⟨by decide, by decide⟩

/-! ## Claim theorems: per-command behaviour (C3, C4, C8, C9, C10) -/

/-- C3 (confirmed): under the generic rule — name not a custom marker,
not a special plasma directive, not in the ignore set — a cutting-motion
code with the torch not engaged emits the torch-on line and the
pierce-delay dwell before the command's own line and engages the torch;
a rapid-traverse `G0` with the torch engaged emits the torch-off line
before the command's own line and disengages it; in every other case the
torch state is unchanged and only the command's own line is emitted. -/
theorem c3_generic_torch_transitions (cfg : Cfg) (st : EngineState)
    (c : Command)
    (h1 : containsSub c.Name "CustomCommand" = false)
    (h2 : c.Name ≠ "M100") (h3 : c.Name ≠ "M101")
    (h4 : ignoreSet.contains c.Name = false) :
    (cutCodes.contains c.Name = true → st.cutting = false →
      processCommand cfg st c =
        ([torchOnLine, dwellLine cfg] ++ commandOwnLine cfg c,
          ⟨true, updateLocation st.currLocation c.Parameters⟩)) ∧
    (c.Name = "G0" → st.cutting = true →
      processCommand cfg st c =
        (torchOffLine :: commandOwnLine cfg c,
          ⟨false, updateLocation st.currLocation c.Parameters⟩)) ∧
    ((cutCodes.contains c.Name = false ∨ st.cutting = true) →
      (c.Name ≠ "G0" ∨ st.cutting = false) →
      processCommand cfg st c =
        (commandOwnLine cfg c,
          ⟨st.cutting, updateLocation st.currLocation c.Parameters⟩)) := by
  unfold processCommand
  rw [if_neg (by simp [h1]), if_neg (by simp [h2, h3]),
    if_neg (by rw [h4]; simp)]
  refine ⟨?_, ?_, ?_⟩
  · intro hc hcut
    rw [if_pos (by rw [hc, hcut]; rfl)]
  · intro hg hcut
    rw [if_neg (by rw [hcut]; simp), if_pos (by simp [hg, hcut])]
    rfl
  · intro ha hb
    rw [if_neg ?cnd1, if_neg ?cnd2]
    · rfl
    case cnd1 =>
      rcases ha with ha | ha
      · rw [ha]; simp
      · rw [ha]; simp
    case cnd2 =>
      rcases hb with hb | hb
      · simp [hb]
      · rw [hb]; simp

/-- Witness for `c3_generic_torch_transitions` on `G1 X1` from a
non-cutting state. -/
theorem c3_generic_torch_transitions_witness :
    processCommand defaultCfg ⟨false, []⟩ ⟨"G1", [("X", ⟨1, 1⟩)]⟩ =
      ([torchOnLine, dwellLine defaultCfg]
        ++ commandOwnLine defaultCfg ⟨"G1", [("X", ⟨1, 1⟩)]⟩,
        ⟨true, updateLocation [] [("X", ⟨1, 1⟩)]⟩) :=
  (c3_generic_torch_transitions defaultCfg ⟨false, []⟩ ⟨"G1", [("X", ⟨1, 1⟩)]⟩
    (by decide) (by decide) (by decide) (by decide)).1 (by decide) rfl

/-- Modelled from the spec (§4.2 step a), for comparison with the code:
visit each tracked letter in the fixed order X, Y, F, I, J that is
present on the command; for `F`, convert the raw value as a velocity
into the active speed unit and keep `F<formatted>` only when the
converted value is strictly positive; for any other letter, convert as a
length into the active length unit and keep `<letter><formatted>`
unconditionally. -/
def specParamTokens (cfg : Cfg) (ps : List (String × Q)) : List String :=
  ["X", "Y", "F", "I", "J"].foldr
    (fun p acc =>
      match lookupParam ps p with
      | none => acc
      | some v =>
        if p = "F" then
          if qPos (convertSpeed cfg.unitSystem v) then
            ("F" ++ formatFixed cfg.precision (convertSpeed cfg.unitSystem v)) :: acc
          else acc
        else (p ++ formatFixed cfg.precision (convertLength cfg.unitSystem v)) :: acc)
    []

/-- The code's movement-parameter loop coincides with the specification's
description. -/
theorem buildParams_eq_spec (cfg : Cfg) (ps : List (String × Q)) :
    buildParams cfg ps = specParamTokens cfg ps := by
  unfold buildParams specParamTokens paramsOrder paramToken
  simp only [List.filterMap_cons, List.filterMap_nil, List.foldr]
  cases hX : lookupParam ps "X" <;>
    cases hY : lookupParam ps "Y" <;>
      cases hI : lookupParam ps "I" <;>
        cases hJ : lookupParam ps "J" <;>
          cases hF : lookupParam ps "F" <;>
            simp [hX, hY, hI, hJ, hF] <;> split_ifs <;> rfl

/-- The fractional part produced by fixed-point formatting has exactly
`p` digits. -/
theorem padDigits_length (p : Nat) : ∀ m, (padDigits p m).length = p := by
  induction p with
  | zero => intro m; rfl
  | succ q ih =>
    intro m
    show (padDigits q (m / 10) ++ [Nat.digitChar (m % 10)]).length = q + 1
    rw [List.length_append, ih]
    rfl

/-- C4 (confirmed): the movement-parameter loop visits the tracked
letters in the fixed order X, Y, F, I, J, converting `F` as a velocity
and keeping it only when positive and converting every other letter as a
length and keeping it unconditionally — exactly the specification's
description — and fixed-point formatting always produces exactly
`precision` fractional digits. -/
theorem c4_param_emission :
    (∀ (cfg : Cfg) (ps : List (String × Q)),
      buildParams cfg ps = specParamTokens cfg ps) ∧
    ∀ p m, (padDigits p m).length = p :=
  ⟨buildParams_eq_spec, padDigits_length⟩

/-- C8 (confirmed): the custom-command scenario — a command named
`CustomCommandFoo` with parameter `A = 1.5` at precision 2 produces
exactly the single comment line `(Custom: CustomCommandFoo A1.50)` and
leaves the engine state untouched, from any state. -/
theorem c8_custom_command_scenario (st : EngineState) :
    processCommand { defaultCfg with precision := 2 } st
      ⟨"CustomCommandFoo", [("A", ⟨3, 2⟩)]⟩ =
      (["(Custom: CustomCommandFoo A1.50)"], st) := by
  unfold processCommand
  rw [if_pos (by decide)]
  rfl

/-- C9 (confirmed): each member of the fixed ignore set produces no
output and leaves the whole engine state — torch flag and location
bookkeeping — unchanged. -/
theorem c9_ignore_set_silence (cfg : Cfg) (st : EngineState) (c : Command)
    (h : c.Name ∈ ignoreSet) : processCommand cfg st c = ([], st) := by
  simp only [ignoreSet, List.mem_cons, List.not_mem_nil, or_false] at h
  rcases h with h | h | h | h | h | h | h <;>
    (unfold processCommand; rw [h]) <;> rfl

/-- Witness for `c9_ignore_set_silence` on `M3 S1`. -/
theorem c9_ignore_set_silence_witness :
    processCommand defaultCfg ⟨false, []⟩ ⟨"M3", [("S", ⟨1, 1⟩)]⟩ =
      ([], ⟨false, []⟩) :=
  c9_ignore_set_silence defaultCfg ⟨false, []⟩ ⟨"M3", [("S", ⟨1, 1⟩)]⟩ (by decide)

/-- C10 (confirmed): custom-marker and M100/M101 commands format their
parameters from the raw values — their output does not depend on the
configured unit system — while the generic rule's output does change
with the unit system (shown on `G0 X1`). -/
theorem c10_raw_values_for_special :
    (∀ (cfg1 cfg2 : Cfg) (st : EngineState) (c : Command),
      cfg1.precision = cfg2.precision →
      (containsSub c.Name "CustomCommand" = true ∨
        c.Name = "M100" ∨ c.Name = "M101") →
      processCommand cfg1 st c = processCommand cfg2 st c) ∧
    processCommand defaultCfg ⟨false, []⟩ ⟨"G0", [("X", ⟨1, 1⟩)]⟩ ≠
      processCommand { defaultCfg with unitSystem := .Imperial } ⟨false, []⟩
        ⟨"G0", [("X", ⟨1, 1⟩)]⟩ := by
  constructor
  · intro cfg1 cfg2 st c hp hc
    unfold processCommand
    rcases hc with hc | hc | hc
    · simp [hc, hp]
    · have hcc : containsSub "M100" "CustomCommand" = false := by decide
      simp [hc, hcc, hp]
    · have hcc : containsSub "M101" "CustomCommand" = false := by decide
      simp [hc, hcc, hp]
  · decide

/-- Witness for the universal part of `c10_raw_values_for_special`:
a custom command renders identically under metric and imperial
configurations. -/
theorem c10_raw_values_for_special_witness :
    processCommand defaultCfg ⟨false, []⟩ ⟨"CustomCommandFoo", [("A", ⟨3, 2⟩)]⟩ =
      processCommand { defaultCfg with unitSystem := .Imperial } ⟨false, []⟩
        ⟨"CustomCommandFoo", [("A", ⟨3, 2⟩)]⟩ :=
  c10_raw_values_for_special.1 defaultCfg
    { defaultCfg with unitSystem := .Imperial } ⟨false, []⟩
    ⟨"CustomCommandFoo", [("A", ⟨3, 2⟩)]⟩ rfl (Or.inl (by decide))

/-! ## Claim theorems: configuration resolver (C5, C7) and postamble (C6) -/

/-- C5 (counterexample to the claim as stated): with options
`--no-header --pierce-delay abc`, the pierce-delay conversion fails and
the resolver reports failure, yet the header flag assignment made before
the failing option remains applied — partial application is observable. -/
theorem c5_counterexample :
    (processArguments initGlobals
      (some { defaultArgs with no_header := true, pierce_delay := "abc" })).1
      = false ∧
    (processArguments initGlobals
      (some { defaultArgs with no_header := true, pierce_delay := "abc" })).2.OUTPUT_HEADER
      = false ∧
    initGlobals.OUTPUT_HEADER = true := by
  refine ⟨by decide, by decide, rfl⟩

/-- C5 (amended): a parse failure of the whole option string applies
nothing; but a failing numeric conversion of the pierce-delay value —
the last option processed — fails the resolver while leaving every
assignment made before it in force, so partial application is observable
on that path. -/
theorem c5_all_or_nothing_amended :
    (∀ g : Globals, processArguments g none = (false, g)) ∧
    ∀ (g : Globals) (a : Args), a.pierce_delay ≠ "" →
      pyFloat a.pierce_delay = none →
      processArguments g (some a) = (false, applyPrePierce g a) := by
  constructor
  · intro g; rfl
  · intro g a h1 h2
    unfold processArguments
    dsimp only
    rw [if_neg (by simpa [String.isEmpty_iff] using h1), h2]

/-- Witness for `c5_all_or_nothing_amended` on the failing option set. -/
theorem c5_all_or_nothing_amended_witness :
    processArguments initGlobals
      (some { defaultArgs with no_header := true, pierce_delay := "abc" }) =
      (false, applyPrePierce initGlobals
        { defaultArgs with no_header := true, pierce_delay := "abc" }) :=
  c5_all_or_nothing_amended.2 initGlobals
    { defaultArgs with no_header := true, pierce_delay := "abc" }
    (by decide) (by decide)

/-- C7 (counterexample to the claim as stated): the precision value
`"abc"` fails numeric parsing, yet the resolver succeeds and stores the
malformed string as the precision. -/
theorem c7_counterexample :
    pyFloat "abc" = none ∧
    (processArguments initGlobals
      (some { defaultArgs with precision := "abc" })).1 = true ∧
    (processArguments initGlobals
      (some { defaultArgs with precision := "abc" })).2.PRECISION = "abc" := by
  refine ⟨by decide, by decide, by decide⟩

/-- C7 (amended): the precision option value is stored as given, with no
numeric validation: for any non-empty precision string the resolver
succeeds and records that string verbatim (only the pierce-delay value
is numerically parsed during resolution). -/
theorem c7_precision_unvalidated (g : Globals) (s : String) (h : s ≠ "") :
    (processArguments g (some { defaultArgs with precision := s })).1 = true ∧
    (processArguments g
      (some { defaultArgs with precision := s })).2.PRECISION = s := by
  have hs : s.isEmpty = false := by
    cases he : s.isEmpty
    · rfl
    · exact absurd ((String.isEmpty_iff s).mp he) h
  constructor
  · rfl
  · have hproj : (processArguments g
        (some { defaultArgs with precision := s })).2.PRECISION
        = (applyPrePierce g { defaultArgs with precision := s }).PRECISION := rfl
    rw [hproj]
    simp [applyPrePierce, defaultArgs, hs]

/-- Witness for `c7_precision_unvalidated` at the malformed value. -/
theorem c7_precision_unvalidated_witness :
    (processArguments initGlobals
      (some { defaultArgs with precision := "abc" })).1 = true ∧
    (processArguments initGlobals
      (some { defaultArgs with precision := "abc" })).2.PRECISION = "abc" :=
  c7_precision_unvalidated initGlobals "abc" (by decide)

/-- C6 (code divergence, evaluated on the default postamble): the
postamble path iterates `splitlines(True)` — terminators kept — and
appends one more newline per piece, so every terminated postamble line
is followed by a spurious blank line; the preamble rule
(`splitlines(False)` plus exactly one appended terminator) would give
the three bare lines. -/
theorem c6_postamble_double_terminator :
    postambleLines defaultPostambleText =
      ["M8 (Torch OFF)", "", "G0 X0 Y0 (Return home)", "",
       "M30 (Program end)", ""] ∧
    pySplitlines defaultPostambleText =
      ["M8 (Torch OFF)", "G0 X0 Y0 (Return home)", "M30 (Program end)"] := by
  refine ⟨by decide, by decide⟩

end PlasmaPost
